import Mathlib

/-!
Verification of the natural-language specification of
src/backend/src/packages/chaiNNer_standard/image/video_frames/load_video.py
against a shallow embedding of that file.

The embedding models:
- the frame-rate resolution at lines 76-87 (Python `or` chains over possibly
  absent Fraction fields, followed by `round(fps, 2)`),
- the frame-count estimation at lines 88-94,
- the audio-stream selection at line 97 (`container.streams.audio[0]`),
- the user limit cap at lines 99-100,
- the generator `iterator` at lines 102-122, which demuxes the two selected
  streams in arrival order, skips packets without a decode timestamp,
  breaks once the running index reaches the limit, yields video frames
  paired with the audio accumulated since the previous yield, and appends
  decoded audio frames to the accumulator.

Numeric fields are rationals (PyAV exposes Fractions; float rounding
artifacts are outside the model). Fallible code returns Except.
-/

namespace LoadVideo

/-- Python truthiness of an optional rational: `None` and `0` are falsy,
every other value is truthy. -/
def truthy : Option ℚ → Bool
  | none => false
  | some q => decide (q ≠ 0)

/-- Python `a or b` for optional rationals: `a` if `a` is truthy, else `b`
(the second operand is returned unexamined, exactly as in Python). -/
def pyOr (a b : Option ℚ) : Option ℚ :=
  if truthy a then a else b

/-- Floor of a rational, computed from its normal form. The denominator is
positive and integer division is Euclidean, so this is the mathematical
floor (`ratFloor_eq`). Phrased over the num/den pair so that the kernel can
evaluate it on concrete inputs. -/
def ratFloor (q : ℚ) : ℤ := q.num / (q.den : ℤ)

/-- Multiplication of rationals, phrased over num/den pairs so that the
kernel can evaluate it on concrete inputs; agrees with `*` (`qmul_eq`). -/
def qmul (a b : ℚ) : ℚ := Rat.divInt (a.num * b.num) ((a.den : ℤ) * (b.den : ℤ))

/-- Rounding to the nearest integer with ties to even, the rounding mode of
Python's builtin `round`. The fractional part `q - ⌊q⌋` equals
`rn / q.den`, so the comparisons with 1/2 are phrased over integers. -/
def roundHalfEven (q : ℚ) : ℤ :=
  let f : ℤ := ratFloor q
  let rn : ℤ := q.num - f * (q.den : ℤ)
  if 2 * rn < (q.den : ℤ) then f
  else if (q.den : ℤ) < 2 * rn then f + 1
  else if f % 2 = 0 then f else f + 1

/-- Python `round(x, 2)` at the exact (rational) level: round half to even
after scaling by 100, then divide by 100. -/
def round2 (q : ℚ) : ℚ := Rat.divInt (roundHalfEven (qmul 100 q)) 100

/-- Python `int(x)`: truncation toward zero (T-division of the num/den
pair). -/
def pyInt (q : ℚ) : ℤ := q.num.tdiv (q.den : ℤ)

/-- The first truthy element of a candidate list. This is the clean
priority-fallback reading of the spec's rate-resolution order, kept as a
separate definition so that the behaviour of the source's `or` chains can be
compared against it. -/
def first_truthy : List (Option ℚ) → Option ℚ
  | [] => none
  | o :: os => if truthy o then o else first_truthy os

/-- Failure modes of the setup phase of `load_video_node`. -/
inductive SetupError
  | rateResolution -- RuntimeError("Failed to get video fps"), line 84
  | noneRate -- AttributeError: `rate.as_integer_ratio()` with rate None, line 86
  | noneDuration -- TypeError: `container.duration / 1000000` with duration None, line 92
  | noVideoStream -- IndexError: `container.streams.video[0]`, line 73
  | noAudioStream -- IndexError: `container.streams.audio[0]`, line 97
deriving DecidableEq

/-- The frame-rate metadata of the selected video stream and its codec
context: `codec_context.framerate`, `codec_context.rate`, and the stream's
`average_rate`, `guessed_rate`, `base_rate`, plus
`codec_context.encoded_frame_count`. Each field may be absent. -/
structure VideoStream where
  framerate : Option ℚ
  rate : Option ℚ
  average_rate : Option ℚ
  guessed_rate : Option ℚ
  base_rate : Option ℚ
  encoded_frame_count : Option ℤ
deriving DecidableEq

/-- An audio stream; the only datum the source reads from it is
`in_stream_a.codec.name`. -/
structure AudioStream where
  codecName : String
deriving DecidableEq

/-- The stream a demuxed packet belongs to (`packet.stream.type`); only the
two selected streams are demuxed. -/
inductive StreamKind
  | video
  | audio
deriving DecidableEq

/-- A demuxed packet: its decode timestamp (`packet.dts`, possibly absent),
the stream it belongs to, and the frames `packet.decode()` yields (a packet
may decode to zero, one, or several frames). Frame payloads are abstract
naturals. -/
structure Packet where
  dts : Option ℤ
  kind : StreamKind
  frames : List ℕ
deriving DecidableEq

/-- One element yielded by the generator:
`(in_frame, index, (audio_arr, in_stream_a.codec.name))`. -/
structure FrameRecord where
  image : ℕ
  index : ℕ
  audio : List ℕ
  codec : String
deriving DecidableEq

/-- An opened media container: its video streams, audio streams, duration in
microseconds (`container.duration`, possibly absent), and the packet
sequence `container.demux(in_stream_v, in_stream_a)` produces, in arrival
order. -/
structure Container where
  video : List VideoStream
  audio : List AudioStream
  duration : Option ℤ
  packets : List Packet
deriving DecidableEq

/-- What `load_video_node` hands back, restricted to the claim-relevant
parts: the fully unrolled lazy sequence, the advertised
`expected_length`, and the resolved fps. -/
structure LoadResult where
  frames : List FrameRecord
  expected_length : ℤ
  fps : ℚ
deriving DecidableEq

/-- Decidable equality of results, so that concrete runs can be checked by
evaluation. -/
instance {ε : Type u} {α : Type v} [DecidableEq ε] [DecidableEq α] :
    DecidableEq (Except ε α) := fun a b =>
  match a, b with
  | Except.ok x, Except.ok y =>
    if h : x = y then Decidable.isTrue (by rw [h])
    else Decidable.isFalse (fun hh => h (Except.ok.inj hh))
  | Except.error x, Except.error y =>
    if h : x = y then Decidable.isTrue (by rw [h])
    else Decidable.isFalse (fun hh => h (Except.error.inj hh))
  | Except.ok _, Except.error _ => Decidable.isFalse (fun hh => Except.noConfusion hh)
  | Except.error _, Except.ok _ => Decidable.isFalse (fun hh => Except.noConfusion hh)

/-- Lines 76-87: `fps = codec_context.framerate or codec_context.rate`;
`rate = average_rate or guessed_rate or base_rate`;
`if fps is None and rate is None: raise RuntimeError(...)`;
`fps = fps or (rate.as_integer_ratio()[0] / rate.as_integer_ratio()[1])`;
`fps = round(fps, 2)`. The `as_integer_ratio` division of a Fraction is the
identity at the rational level; calling it on `None` is an AttributeError. -/
def resolve_fps (v : VideoStream) : Except SetupError ℚ :=
  let fps0 := pyOr v.framerate v.rate
  let rate0 := pyOr v.average_rate (pyOr v.guessed_rate v.base_rate)
  if fps0 = none ∧ rate0 = none then Except.error SetupError.rateResolution
  else if truthy fps0 then Except.ok (round2 (fps0.getD 0))
  else if rate0 = none then Except.error SetupError.noneRate
  else Except.ok (round2 (rate0.getD 0))

/-- Lines 88-94: `frame_count = codec_context.encoded_frame_count`;
`duration = container.duration / 1000000`;
`if frame_count is None or frame_count == 0: frame_count = int(duration * fps)`. -/
def estimate_frame_count (enc : Option ℤ) (duration_us : ℤ) (fps : ℚ) : ℤ :=
  let duration : ℚ := Rat.divInt duration_us 1000000
  match enc with
  | none => pyInt (qmul duration fps)
  | some n => if n = 0 then pyInt (qmul duration fps) else n

/-- The inner `for frame in packet.decode()` loop of the generator for a
video packet (lines 112-117): each decoded frame is yielded with the current
index and the current accumulator, then the index is incremented and the
accumulator is rebound to a fresh empty list. Returns the yielded records,
the final index, and the final accumulator. -/
def yield_frames (codec : String) (index : ℕ) (audio_arr : List ℕ) :
    List ℕ → List FrameRecord × ℕ × List ℕ
  | [] => ([], index, audio_arr)
  | f :: fs =>
    let rest := yield_frames codec (index + 1) [] fs
    (⟨f, index, audio_arr, codec⟩ :: rest.1, rest.2.1, rest.2.2)

/-- The packet loop of the generator (lines 102-122): skip packets without a
decode timestamp; break once `use_limit` is set and the index has reached
the limit; dispatch decoded frames on the packet's stream type. Returns the
yielded records, the final index, and the final audio accumulator. -/
def demux_loop (use_limit : Bool) (limit : ℤ) (codec : String) :
    List Packet → ℕ → List ℕ → List FrameRecord × ℕ × List ℕ
  | [], index, audio_arr => ([], index, audio_arr)
  | p :: ps, index, audio_arr =>
    if p.dts = none then demux_loop use_limit limit codec ps index audio_arr
    else if use_limit ∧ limit ≤ (index : ℤ) then ([], index, audio_arr)
    else
      match p.kind with
      | StreamKind.video =>
        let y := yield_frames codec index audio_arr p.frames
        let d := demux_loop use_limit limit codec ps y.2.1 y.2.2
        (y.1 ++ d.1, d.2.1, d.2.2)
      | StreamKind.audio =>
        demux_loop use_limit limit codec ps index (audio_arr ++ p.frames)

/-- A full run of the generator from its initial state
(`index = 0`, `audio_arr = []`): the sequence of yielded records. -/
def run (use_limit : Bool) (limit : ℤ) (codec : String) (ps : List Packet) :
    List FrameRecord :=
  (demux_loop use_limit limit codec ps 0 []).1

/-- The audio accumulator's contents when the generator exits. -/
def leftover_audio (use_limit : Bool) (limit : ℤ) (codec : String)
    (ps : List Packet) : List ℕ :=
  (demux_loop use_limit limit codec ps 0 []).2.2

/-- Observable effects of the generator on its resources. -/
inductive Effect
  | yielded (r : FrameRecord)
  | closed
deriving DecidableEq

/-- The effect trace of a run. The generator body (lines 102-122) consists
of the yield statements and pure local updates only: it contains no
`container.close()` call, no `try`/`finally`, and no context manager, so
the trace of a run is exactly its yields. -/
def iterator_effects (use_limit : Bool) (limit : ℤ) (codec : String)
    (ps : List Packet) : List Effect :=
  (run use_limit limit codec ps).map Effect.yielded

/-- The ordered sequence of audio sub-frames the generator decodes from the
container when it consumes every packet: the frames of every audio packet
that carries a decode timestamp (timestamp-less packets are skipped before
`packet.decode()` is reached). -/
def decoded_audio (ps : List Packet) : List ℕ :=
  (ps.filter fun p => p.dts.isSome && (p.kind == StreamKind.audio)).flatMap
    Packet.frames

/-- Concatenation of the attached per-frame audio lists, in emission
order. -/
def attached_audio (recs : List FrameRecord) : List ℕ :=
  recs.flatMap FrameRecord.audio

/-- The ordered sequence of audio sub-frames a run actually decodes. This
mirrors the control flow of the packet loop exactly — the same
timestamp-skip guard and the same per-packet limit break, with the index
advanced by the number of decoded frames of each video packet — and records
the frames of every audio packet that reaches `packet.decode()`. For an
unlimited run it coincides with `decoded_audio` (`decoded_audio_from_false`);
under a limit the run stops decoding at the break. -/
def decoded_audio_from (use_limit : Bool) (limit : ℤ) :
    List Packet → ℕ → List ℕ
  | [], _ => []
  | p :: ps, index =>
    if p.dts = none then decoded_audio_from use_limit limit ps index
    else if use_limit ∧ limit ≤ (index : ℤ) then []
    else
      match p.kind with
      | StreamKind.video => decoded_audio_from use_limit limit ps (index + p.frames.length)
      | StreamKind.audio => p.frames ++ decoded_audio_from use_limit limit ps index

/-- One observable step of the generator, in program order: an audio
sub-frame coming out of `packet.decode()` (line 121-122), or a video frame
being yielded (line 114). -/
inductive TraceEv
  | decodedAudio (f : ℕ)
  | yielded (r : FrameRecord)
deriving DecidableEq

/-- The interleaved decode/yield trace of the packet loop. It mirrors
`demux_loop` step for step — same guards, same state — but records the
events instead of the final state: a video packet contributes its yields, an
audio packet contributes its decoded sub-frames (which the loop also
appends to the accumulator). `demux_trace_yields` ties it back to
`demux_loop`. -/
def demux_trace (use_limit : Bool) (limit : ℤ) (codec : String) :
    List Packet → ℕ → List ℕ → List TraceEv
  | [], _, _ => []
  | p :: ps, index, audio_arr =>
    if p.dts = none then demux_trace use_limit limit codec ps index audio_arr
    else if use_limit ∧ limit ≤ (index : ℤ) then []
    else
      match p.kind with
      | StreamKind.video =>
        let y := yield_frames codec index audio_arr p.frames
        y.1.map TraceEv.yielded ++ demux_trace use_limit limit codec ps y.2.1 y.2.2
      | StreamKind.audio =>
        p.frames.map TraceEv.decodedAudio ++
          demux_trace use_limit limit codec ps index (audio_arr ++ p.frames)

/-- Audio segmentation of a trace, relative to the audio `acc` already
decoded and not yet attached: every yielded record carries exactly the
audio decoded strictly after the previous yield (exclusive) and up to the
current one (inclusive), in arrival order, and the segment restarts empty
after each yield. -/
def segmented : List TraceEv → List ℕ → Prop
  | [], _ => True
  | TraceEv.decodedAudio f :: t, acc => segmented t (acc ++ [f])
  | TraceEv.yielded r :: t, acc => r.audio = acc ∧ segmented t []

/-- `q` is the value of one of the five rate-candidate fields of `v`. -/
def candidate_of (v : VideoStream) (q : ℚ) : Prop :=
  v.framerate = some q ∨ v.rate = some q ∨ v.average_rate = some q ∨
    v.guessed_rate = some q ∨ v.base_rate = some q

/-- The setup phase of `load_video_node` (lines 66-130), in source order:
index the first video stream, resolve the fps, divide the container
duration (a TypeError if it is absent), estimate the frame count, index the
first audio stream, cap the count by the limit when `use_limit` is set, and
build the iterator together with the advertised expected length. -/
def load_video_node (use_limit : Bool) (limit : ℤ) (c : Container) :
    Except SetupError LoadResult :=
  match c.video with
  | [] => Except.error SetupError.noVideoStream
  | v :: _ =>
    match resolve_fps v with
    | Except.error e => Except.error e
    | Except.ok fps =>
      match c.duration with
      | none => Except.error SetupError.noneDuration
      | some dur =>
        let frame_count := estimate_frame_count v.encoded_frame_count dur fps
        match c.audio with
        | [] => Except.error SetupError.noAudioStream
        | a :: _ =>
          let capped := if use_limit then min frame_count limit else frame_count
          Except.ok ⟨run use_limit limit a.codecName c.packets, capped, fps⟩

end LoadVideo

namespace LoadVideo

/-! ## Bridging lemmas for the computable numeric helpers -/

theorem ratFloor_eq (q : ℚ) : ratFloor q = ⌊q⌋ :=
  Rat.floor_def.symm

theorem qmul_eq (a b : ℚ) : qmul a b = a * b := by
  rw [qmul, Rat.divInt_eq_div]
  push_cast
  rw [← div_mul_div_comm, Rat.num_div_den, Rat.num_div_den]

theorem pyInt_eq_floor (q : ℚ) (h : 0 ≤ q) : pyInt q = ⌊q⌋ := by
  rw [pyInt, Int.tdiv_eq_ediv (Rat.num_nonneg.mpr h) (Int.ofNat_nonneg q.den)]
  exact Rat.floor_def.symm

theorem den_cast_lt_two_mul_num (q : ℚ) (h : 1/2 < q) : (q.den : ℤ) < 2 * q.num := by
  have hd : (0:ℚ) < (q.den : ℚ) := by exact_mod_cast q.pos
  rw [div_lt_iff₀ (by norm_num : (0:ℚ) < 2)] at h
  rw [← Rat.num_div_den q, div_mul_eq_mul_div, lt_div_iff₀ hd] at h
  have : (q.den : ℚ) < 2 * (q.num : ℚ) := by linarith
  exact_mod_cast this

theorem roundHalfEven_pos (q : ℚ) (h : 1/2 < q) : 1 ≤ roundHalfEven q := by
  have hq0 : 0 ≤ q := le_of_lt (lt_trans (by norm_num) h)
  have hf0 : 0 ≤ ⌊q⌋ := Int.floor_nonneg.mpr hq0
  have hlt : (q.den : ℤ) < 2 * q.num := den_cast_lt_two_mul_num q h
  rcases lt_or_le ⌊q⌋ 1 with hf1 | hf1
  · have hfeq : ⌊q⌋ = (0:ℤ) := by omega
    simp only [roundHalfEven, ratFloor_eq, hfeq]
    split_ifs <;> omega
  · simp only [roundHalfEven, ratFloor_eq]
    split_ifs <;> omega

theorem roundHalfEven_nonneg (q : ℚ) (h : 0 ≤ q) : 0 ≤ roundHalfEven q := by
  have hf0 : 0 ≤ ⌊q⌋ := Int.floor_nonneg.mpr h
  simp only [roundHalfEven, ratFloor_eq]
  split_ifs <;> omega

theorem round2_pos (q : ℚ) (h : 1 ≤ q) : 0 < round2 q := by
  have h100 : (1:ℚ)/2 < qmul 100 q := by
    rw [qmul_eq]
    nlinarith
  have hk := roundHalfEven_pos (qmul 100 q) h100
  rw [round2, Rat.divInt_eq_div]
  apply div_pos _ (by norm_num)
  exact_mod_cast lt_of_lt_of_le Int.zero_lt_one hk

theorem round2_nonneg (q : ℚ) (h : 0 ≤ q) : 0 ≤ round2 q := by
  have h100 : (0:ℚ) ≤ qmul 100 q := by
    rw [qmul_eq]
    nlinarith
  have hk := roundHalfEven_nonneg (qmul 100 q) h100
  rw [round2, Rat.divInt_eq_div]
  apply div_nonneg _ (by norm_num)
  exact_mod_cast hk

end LoadVideo

namespace LoadVideo

/-! ## Structural lemmas about the generator -/

theorem attached_audio_nil : attached_audio [] = [] := rfl

theorem attached_audio_cons (r : FrameRecord) (recs : List FrameRecord) :
    attached_audio (r :: recs) = r.audio ++ attached_audio recs := rfl

theorem attached_audio_append (l1 l2 : List FrameRecord) :
    attached_audio (l1 ++ l2) = attached_audio l1 ++ attached_audio l2 := by
  simp [attached_audio]

theorem decoded_audio_nil : decoded_audio [] = [] := rfl

theorem decoded_audio_cons (p : Packet) (ps : List Packet) :
    decoded_audio (p :: ps) =
      (if p.dts.isSome ∧ p.kind = StreamKind.audio then p.frames else []) ++
        decoded_audio ps := by
  by_cases h1 : p.dts.isSome <;> by_cases h2 : p.kind = StreamKind.audio <;>
    simp [decoded_audio, List.filter_cons, h1, h2]

theorem range1_append (s m n : ℕ) :
    List.range' s m ++ List.range' (s + m) n = List.range' s (m + n) := by
  simp [Nat.add_comm]

theorem yield_frames_map_index (codec : String) (fs : List ℕ) :
    ∀ (i : ℕ) (a : List ℕ),
      (yield_frames codec i a fs).1.map FrameRecord.index = List.range' i fs.length := by
  induction fs with
  | nil => intro i a; simp [yield_frames]
  | cons f fs ih => intro i a; simp [yield_frames, List.range'_succ, ih]

theorem yield_frames_index_final (codec : String) (fs : List ℕ) :
    ∀ (i : ℕ) (a : List ℕ), (yield_frames codec i a fs).2.1 = i + fs.length := by
  induction fs with
  | nil => intro i a; simp [yield_frames]
  | cons f fs ih => intro i a; simp [yield_frames, ih]; omega

theorem yield_frames_length (codec : String) (fs : List ℕ) :
    ∀ (i : ℕ) (a : List ℕ), (yield_frames codec i a fs).1.length = fs.length := by
  induction fs with
  | nil => intro i a; simp [yield_frames]
  | cons f fs ih => intro i a; simp [yield_frames, ih]

theorem yield_frames_audio (codec : String) (fs : List ℕ) :
    ∀ (i : ℕ) (a : List ℕ),
      attached_audio (yield_frames codec i a fs).1 ++ (yield_frames codec i a fs).2.2 = a := by
  induction fs with
  | nil => intro i a; simp [yield_frames, attached_audio_nil]
  | cons f fs ih =>
    intro i a
    simp only [yield_frames, attached_audio_cons]
    rw [List.append_assoc, ih (i + 1) []]
    simp

end LoadVideo

namespace LoadVideo

theorem demux_loop_map_index (u : Bool) (L : ℤ) (codec : String) (ps : List Packet) :
    ∀ (i : ℕ) (a : List ℕ),
      (demux_loop u L codec ps i a).1.map FrameRecord.index =
        List.range' i (demux_loop u L codec ps i a).1.length := by
  induction ps with
  | nil => intro i a; simp [demux_loop]
  | cons p ps ih =>
    intro i a
    obtain ⟨dts, k, fs⟩ := p
    by_cases hdts : dts = (none : Option ℤ)
    · simp only [demux_loop, if_pos hdts]
      exact ih i a
    · by_cases hlim : u = true ∧ L ≤ (i : ℤ)
      · simp [demux_loop, hdts, hlim]
      · cases k
        · simp only [demux_loop, if_neg hdts, if_neg hlim, List.map_append,
            List.length_append]
          rw [yield_frames_map_index, yield_frames_length, ih, yield_frames_index_final]
          exact range1_append i fs.length _
        · simp only [demux_loop, if_neg hdts, if_neg hlim]
          exact ih i (a ++ fs)

theorem demux_loop_audio_balance (u : Bool) (L : ℤ) (codec : String) (ps : List Packet) :
    ∀ (i : ℕ) (a : List ℕ),
      attached_audio (demux_loop u L codec ps i a).1 ++
          (demux_loop u L codec ps i a).2.2 =
        a ++ decoded_audio_from u L ps i := by
  induction ps with
  | nil => intro i a; simp [demux_loop, decoded_audio_from, attached_audio_nil]
  | cons p ps ih =>
    intro i a
    obtain ⟨dts, k, fs⟩ := p
    cases dts
    · simp only [demux_loop, decoded_audio_from, if_pos rfl]
      exact ih i a
    · by_cases hlim : u = true ∧ L ≤ (i : ℤ)
      · simp [demux_loop, decoded_audio_from, hlim, attached_audio_nil]
      · cases k
        · simp only [demux_loop, decoded_audio_from, reduceCtorEq, if_neg, hlim, if_false,
            attached_audio_append, List.append_assoc]
          rw [ih]
          rw [← List.append_assoc, yield_frames_audio, yield_frames_index_final]
        · simp only [demux_loop, decoded_audio_from, reduceCtorEq, if_neg, hlim, if_false]
          rw [ih]
          simp

theorem decoded_audio_from_false (L : ℤ) (ps : List Packet) :
    ∀ (i : ℕ), decoded_audio_from false L ps i = decoded_audio ps := by
  induction ps with
  | nil => intro i; simp [decoded_audio_from, decoded_audio_nil]
  | cons p ps ih =>
    intro i
    obtain ⟨dts, k, fs⟩ := p
    rw [decoded_audio_cons]
    cases dts
    · simp only [decoded_audio_from, if_pos rfl]
      simpa using ih i
    · cases k
      · simp only [decoded_audio_from, reduceCtorEq, if_neg, false_and, if_false]
        simpa using ih (i + fs.length)
      · simp only [decoded_audio_from, reduceCtorEq, if_neg, false_and, if_false]
        rw [ih i]
        simp

theorem segmented_yield_block (codec : String) (fs : List ℕ) :
    ∀ (i : ℕ) (a : List ℕ) (t : List TraceEv),
      segmented t (yield_frames codec i a fs).2.2 →
      segmented ((yield_frames codec i a fs).1.map TraceEv.yielded ++ t) a := by
  induction fs with
  | nil => intro i a t h; simpa [yield_frames] using h
  | cons f fs ih =>
    intro i a t h
    simp only [yield_frames, List.map_cons, List.cons_append, segmented]
    exact ⟨trivial, ih (i + 1) [] t h⟩

theorem segmented_audio_block (fs : List ℕ) :
    ∀ (a : List ℕ) (t : List TraceEv),
      segmented t (a ++ fs) →
      segmented (fs.map TraceEv.decodedAudio ++ t) a := by
  induction fs with
  | nil => intro a t h; simpa using h
  | cons f fs ih =>
    intro a t h
    simp only [List.map_cons, List.cons_append, segmented]
    exact ih (a ++ [f]) t (by simpa using h)

theorem demux_trace_segmented (u : Bool) (L : ℤ) (codec : String) (ps : List Packet) :
    ∀ (i : ℕ) (a : List ℕ), segmented (demux_trace u L codec ps i a) a := by
  induction ps with
  | nil => intro i a; simp [demux_trace, segmented]
  | cons p ps ih =>
    intro i a
    obtain ⟨dts, k, fs⟩ := p
    cases dts
    · simp only [demux_trace, if_pos rfl]
      exact ih i a
    · by_cases hlim : u = true ∧ L ≤ (i : ℤ)
      · simp [demux_trace, hlim, segmented]
      · cases k
        · simp only [demux_trace, reduceCtorEq, if_neg, hlim, if_false]
          exact segmented_yield_block codec fs i a _
            (ih (yield_frames codec i a fs).2.1 (yield_frames codec i a fs).2.2)
        · simp only [demux_trace, reduceCtorEq, if_neg, hlim, if_false]
          exact segmented_audio_block fs a _ (ih i (a ++ fs))

theorem demux_trace_yields (u : Bool) (L : ℤ) (codec : String) (ps : List Packet) :
    ∀ (i : ℕ) (a : List ℕ),
      (demux_trace u L codec ps i a).filterMap
          (fun e => match e with
            | TraceEv.yielded r => some r
            | TraceEv.decodedAudio _ => none) =
        (demux_loop u L codec ps i a).1 := by
  induction ps with
  | nil => intro i a; simp [demux_trace, demux_loop]
  | cons p ps ih =>
    intro i a
    obtain ⟨dts, k, fs⟩ := p
    cases dts
    · simp only [demux_trace, demux_loop, if_pos rfl]
      exact ih i a
    · by_cases hlim : u = true ∧ L ≤ (i : ℤ)
      · simp [demux_trace, demux_loop, hlim]
      · cases k
        · simp only [demux_trace, demux_loop, reduceCtorEq, if_neg, hlim, if_false,
            List.filterMap_append, List.filterMap_map]
          rw [ih]
          simp [Function.comp_def, List.filterMap_some]
        · simp only [demux_trace, demux_loop, reduceCtorEq, if_neg, hlim, if_false,
            List.filterMap_append, List.filterMap_map]
          rw [ih]
          simp [Function.comp_def]

theorem demux_loop_limit_extends (L : ℤ) (codec : String) (ps : List Packet) :
    ∀ (i : ℕ) (a : List ℕ),
      ∃ t, (demux_loop false L codec ps i a).1 = (demux_loop true L codec ps i a).1 ++ t := by
  induction ps with
  | nil => intro i a; exact ⟨[], rfl⟩
  | cons p ps ih =>
    intro i a
    obtain ⟨dts, k, fs⟩ := p
    cases dts with
    | none => simpa [demux_loop] using ih i a
    | some d =>
      by_cases hlim : L ≤ (i : ℤ)
      · refine ⟨(demux_loop false L codec (⟨some d, k, fs⟩ :: ps) i a).1, ?_⟩
        simp [demux_loop, hlim]
      · cases k
        · obtain ⟨t, ht⟩ := ih (yield_frames codec i a fs).2.1 (yield_frames codec i a fs).2.2
          refine ⟨t, ?_⟩
          simp only [demux_loop, reduceCtorEq, if_neg, false_and, if_false, true_and, hlim]
          rw [ht, List.append_assoc]
        · simpa [demux_loop, hlim] using ih i (a ++ fs)

theorem demux_loop_limit_length (L : ℤ) (codec : String) (ps : List Packet) :
    ∀ (i : ℕ) (a : List ℕ),
      (∀ p ∈ ps, p.kind = StreamKind.video → p.frames.length ≤ 1) →
      (demux_loop true L codec ps i a).1.length ≤ (L - (i : ℤ)).toNat := by
  induction ps with
  | nil => intro i a _; simp [demux_loop]
  | cons p ps ih =>
    intro i a hf
    have hfp := hf p (List.mem_cons_self p ps)
    have hfps : ∀ q ∈ ps, q.kind = StreamKind.video → q.frames.length ≤ 1 :=
      fun q hq => hf q (List.mem_cons_of_mem p hq)
    obtain ⟨dts, k, fs⟩ := p
    cases dts
    · simp only [demux_loop, if_pos rfl]
      exact ih i a hfps
    · by_cases hlim : L ≤ (i : ℤ)
      · simp [demux_loop, hlim]
      · cases k
        · have hlen : fs.length ≤ 1 := hfp rfl
          match fs, hlen with
          | [], _ =>
            simp only [demux_loop, reduceCtorEq, if_neg, false_and, if_false, true_and, hlim,
              yield_frames, List.nil_append]
            exact ih i a hfps
          | [f], _ =>
            simp only [demux_loop, reduceCtorEq, if_neg, false_and, if_false, true_and, hlim,
              yield_frames, List.length_cons, List.cons_append, List.nil_append,
              List.length_append, List.length_nil]
            have := ih (i + 1) [] hfps
            omega
        · simp only [demux_loop, reduceCtorEq, if_neg, false_and, if_false, true_and, hlim]
          exact ih i (a ++ fs) hfps

theorem demux_loop_limit_index (L : ℤ) (codec : String) (ps : List Packet)
    (i : ℕ) (a : List ℕ)
    (hf : ∀ p ∈ ps, p.kind = StreamKind.video → p.frames.length ≤ 1)
    (hiL : (i : ℤ) ≤ L) :
    ∀ r ∈ (demux_loop true L codec ps i a).1, (r.index : ℤ) < L := by
  intro r hr
  have h1 : r.index ∈ List.range' i ((demux_loop true L codec ps i a).1.length) := by
    rw [← demux_loop_map_index]
    exact List.mem_map_of_mem FrameRecord.index hr
  have h2 := List.mem_range'_1.mp h1
  have h3 := demux_loop_limit_length L codec ps i a hf
  omega

end LoadVideo

namespace LoadVideo

/-! ## Analysis of the rate resolution and the setup phase -/

theorem truthy_some {o : Option ℚ} (h : truthy o = true) : ∃ x, o = some x ∧ x ≠ 0 := by
  cases o with
  | none => simp [truthy] at h
  | some q => exact ⟨q, rfl, by simpa [truthy] using h⟩

theorem pyOr_cases (a b : Option ℚ) : pyOr a b = a ∨ pyOr a b = b := by
  rw [pyOr]
  split_ifs
  · exact Or.inl rfl
  · exact Or.inr rfl

/-- Whatever `resolve_fps` returns successfully is one of the five candidate
fields, rounded to two decimals. -/
theorem resolve_fps_ok_winner (v : VideoStream) (q : ℚ)
    (hok : resolve_fps v = Except.ok q) : ∃ x, candidate_of v x ∧ q = round2 x := by
  rw [resolve_fps] at hok
  split_ifs at hok with h1 h2 h3
  · obtain ⟨x, hx, hx0⟩ := truthy_some h2
    refine ⟨x, ?_, ?_⟩
    · rcases pyOr_cases v.framerate v.rate with h | h
      · exact Or.inl (by rw [← h]; exact hx)
      · exact Or.inr (Or.inl (by rw [← h]; exact hx))
    · rw [hx] at hok
      simpa using (Except.ok.inj hok).symm
  · rcases ho : pyOr v.average_rate (pyOr v.guessed_rate v.base_rate) with _ | x
    · exact absurd ho h3
    · refine ⟨x, ?_, ?_⟩
      · rcases pyOr_cases v.average_rate (pyOr v.guessed_rate v.base_rate) with h | h
        · exact Or.inr (Or.inr (Or.inl (by rw [← h]; exact ho)))
        · rcases pyOr_cases v.guessed_rate v.base_rate with h' | h'
          · exact Or.inr (Or.inr (Or.inr (Or.inl (by rw [← h', ← h]; exact ho))))
          · exact Or.inr (Or.inr (Or.inr (Or.inr (by rw [← h', ← h]; exact ho))))
      · rw [ho] at hok
        simpa using (Except.ok.inj hok).symm

/-- The estimation branch of `estimate_frame_count` is the mathematical
floor of `duration_seconds * fps` whenever that product is nonnegative. -/
theorem estimate_frame_count_floor (enc : Option ℤ) (dus : ℤ) (fps : ℚ)
    (hd : 0 ≤ dus) (hf : 0 ≤ fps)
    (henc : enc = none ∨ enc = some 0) :
    estimate_frame_count enc dus fps = ⌊(dus : ℚ) / 1000000 * fps⌋ := by
  have hq : qmul (Rat.divInt dus 1000000) fps = (dus : ℚ) / 1000000 * fps := by
    rw [qmul_eq, Rat.divInt_eq_div]
    norm_num
  have hnn : 0 ≤ (dus : ℚ) / 1000000 * fps := by
    apply mul_nonneg _ hf
    apply div_nonneg _ (by norm_num)
    exact_mod_cast hd
  rcases henc with h | h
  · rw [h]
    simp only [estimate_frame_count, if_pos rfl, hq, pyInt_eq_floor _ hnn]
  · rw [h]
    simp only [estimate_frame_count, if_pos rfl, hq, pyInt_eq_floor _ hnn]
    simp

/-- Reduction of the setup phase on the success path. -/
theorem load_video_node_ok (u : Bool) (L : ℤ) (c : Container) (v : VideoStream)
    (vs : List VideoStream) (a : AudioStream) (sa : List AudioStream)
    (dus : ℤ) (fps : ℚ)
    (hv : c.video = v :: vs) (ha : c.audio = a :: sa) (hd : c.duration = some dus)
    (hres : resolve_fps v = Except.ok fps) :
    load_video_node u L c = Except.ok
      ⟨run u L a.codecName c.packets,
        if u then min (estimate_frame_count v.encoded_frame_count dus fps) L
        else estimate_frame_count v.encoded_frame_count dus fps, fps⟩ := by
  simp only [load_video_node, hv, hres, hd, ha]

/-- The advertised expected length, extracted from a successful setup. -/
theorem load_expected_length (u : Bool) (L : ℤ) (c : Container) (v : VideoStream)
    (vs : List VideoStream) (dus : ℤ) (fps : ℚ) (r : LoadResult)
    (hv : c.video = v :: vs) (hd : c.duration = some dus)
    (hres : resolve_fps v = Except.ok fps)
    (hok : load_video_node u L c = Except.ok r) :
    r.expected_length =
      (if u then min (estimate_frame_count v.encoded_frame_count dus fps) L
       else estimate_frame_count v.encoded_frame_count dus fps) := by
  cases hca : c.audio with
  | nil =>
    simp only [load_video_node, hv, hres, hd, hca, reduceCtorEq] at hok
  | cons a sa =>
    rw [load_video_node_ok u L c v vs a sa dus fps hv hca hd hres] at hok
    rw [← Except.ok.inj hok]

end LoadVideo

namespace LoadVideo

/-! ## Claim C1 -/

/-- Claim C1, counterexample: the claim says the concatenation of all
per-frame attached-audio lists equals the full ordered sequence of decoded
audio sub-frames. On a container whose packets are one video packet followed
by one audio packet, both with timestamps, the audio sub-frame 3 is decoded
(appended to the accumulator) but the run ends before another video frame is
yielded, so the attached concatenation is [] while the decoded sequence is
[3]: audio decoded after the last yielded video frame is dropped. -/
theorem c1_counterexample :
    attached_audio (run false 0 "a"
        [⟨some 0, StreamKind.video, [7]⟩, ⟨some 1, StreamKind.audio, [3]⟩]) = [] ∧
    decoded_audio [⟨some 0, StreamKind.video, [7]⟩, ⟨some 1, StreamKind.audio, [3]⟩] = [3] ∧
    attached_audio (run false 0 "a"
        [⟨some 0, StreamKind.video, [7]⟩, ⟨some 1, StreamKind.audio, [3]⟩]) ≠
      decoded_audio [⟨some 0, StreamKind.video, [7]⟩, ⟨some 1, StreamKind.audio, [3]⟩] := by
  refine ⟨by decide, by decide, by decide⟩

/-- Claim C1 (amended): for every run, limited or not, the iterator's
decode/yield trace is audio-segmented — each emitted frame's attached audio
is exactly the audio decoded strictly between the previous yielded video
frame (exclusive) and the current one (inclusive), in arrival order — and
the concatenation of all per-frame attached-audio lists, in emission order,
followed by the audio left in the accumulator at exit, equals the full
ordered sequence of audio sub-frames the run decodes; for an unlimited run
that sequence is the full decoded audio of the container. No decoded audio
sub-frame is duplicated or reordered; the only decoded audio never attached
is the leftover accumulator (audio after the last yielded video frame, or
audio decoded before an active limit break), as the counterexample
forces. -/
theorem c1_audio_balance (u : Bool) (L : ℤ) (codec : String) (ps : List Packet) :
    segmented (demux_trace u L codec ps 0 []) [] ∧
    attached_audio (run u L codec ps) ++ leftover_audio u L codec ps =
      decoded_audio_from u L ps 0 ∧
    decoded_audio_from false L ps 0 = decoded_audio ps := by
  refine ⟨demux_trace_segmented u L codec ps 0 [], ?_, decoded_audio_from_false L ps 0⟩
  have h := demux_loop_audio_balance u L codec ps 0 []
  simpa [run, leftover_audio] using h

/-! ## Claim C2 -/

/-- Claim C2, counterexample: the claim says the container is closed exactly
once on every exit path. On a normal, exhausted run over a one-packet
container the effect trace of the iterator contains zero close events, not
one: the source contains no `container.close()` call at all. -/
theorem c2_counterexample :
    (iterator_effects false 0 "a" [⟨some 0, StreamKind.video, [7]⟩]).count Effect.closed = 0 ∧
    (0 : ℕ) ≠ 1 := by
  refine ⟨by decide, by decide⟩

/-- Claim C2 (amended): the iterator never closes the container on any
modeled exit path (normal exhaustion of packets or the limit break): the
effect trace of every run contains no close event. The generator body
(lines 102-122) has no `container.close()`, no `try`/`finally` and no
context manager, so the error and early-abandonment paths perform no close
either; releasing the handle is left to the runtime, not done by this code
before an error is surfaced. -/
theorem c2_never_closed (u : Bool) (L : ℤ) (codec : String) (ps : List Packet) :
    (iterator_effects u L codec ps).count Effect.closed = 0 := by
  rw [List.count_eq_zero]
  intro hmem
  rw [iterator_effects, List.mem_map] at hmem
  obtain ⟨r, _, hr⟩ := hmem
  exact Effect.noConfusion hr

/-! ## Claim C3 -/

/-- Claim C3, counterexample: with `use_limit = true` and `limit = 1`, a
single video packet that decodes to two frames yields two records (more
than `limit`), and the second record carries index 1, which is not strictly
less than the limit: the break check at line 110 runs between packets, not
between decoded frames. -/
theorem c3_counterexample :
    (run true 1 "a" [⟨some 0, StreamKind.video, [5, 6]⟩]).length = 2 ∧
    ¬((run true 1 "a" [⟨some 0, StreamKind.video, [5, 6]⟩]).length ≤ 1) ∧
    ((run true 1 "a" [⟨some 0, StreamKind.video, [5, 6]⟩]).getD 1 ⟨0, 0, [], ""⟩).index = 1 := by
  refine ⟨by decide, by decide, by decide⟩

/-- Claim C3 (amended): for every run with `use_limit = true` and
`limit = L > 0` in which every video packet decodes to at most one frame
(the ordinary case; the counterexample shows the bound fails for
multi-frame packets), at most `L` video frames are yielded and every
yielded frame index is strictly less than `L`; and, with no side condition,
the advertised expected length of a successful setup equals
`min(metadata_or_estimated_frame_count, L)`. -/
theorem c3_limit (L : ℤ) (codec : String) (ps : List Packet) (hL : 0 < L)
    (hf : ∀ p ∈ ps, p.kind = StreamKind.video → p.frames.length ≤ 1) :
    (run true L codec ps).length ≤ L.toNat ∧
    (∀ r ∈ run true L codec ps, (r.index : ℤ) < L) ∧
    (∀ (c : Container) (v : VideoStream) (vs : List VideoStream)
        (dus : ℤ) (fps : ℚ) (r : LoadResult),
      c.video = v :: vs → c.duration = some dus → resolve_fps v = Except.ok fps →
      load_video_node true L c = Except.ok r →
      r.expected_length = min (estimate_frame_count v.encoded_frame_count dus fps) L) := by
  refine ⟨?_, ?_, ?_⟩
  · have h := demux_loop_limit_length L codec ps 0 [] hf
    have : run true L codec ps = (demux_loop true L codec ps 0 []).1 := rfl
    rw [this]
    omega
  · intro r hr
    exact demux_loop_limit_index L codec ps 0 [] hf (by exact_mod_cast hL.le) r hr
  · intro c v vs dus fps r hv hd hres hok
    have h := load_expected_length true L c v vs dus fps r hv hd hres hok
    simpa using h

/-- Claim C3, witness: a concrete limited run with single-frame packets
satisfies the bound, the index bound at the emitted record, and the
advertised-length equation (`min 5 1 = 1`). -/
theorem c3_witness :
    (run true 1 "a" [⟨some 0, StreamKind.video, [5]⟩, ⟨some 1, StreamKind.video, [6]⟩]).length ≤
        (1 : ℤ).toNat ∧
    ((⟨5, 0, [], "a"⟩ : FrameRecord).index : ℤ) < 1 ∧
    (⟨[⟨5, 0, [], "a"⟩], 1, 24⟩ : LoadResult).expected_length =
      min (estimate_frame_count (some 5) 1000000 24) 1 := by
  have h := c3_limit 1 "a" [⟨some 0, StreamKind.video, [5]⟩, ⟨some 1, StreamKind.video, [6]⟩]
    (by decide) (by decide)
  refine ⟨h.1, ?_, ?_⟩
  · exact h.2.1 ⟨5, 0, [], "a"⟩ (by decide)
  · exact h.2.2 ⟨[⟨some 24, none, none, none, none, some 5⟩], [⟨"a"⟩], some 1000000,
      [⟨some 0, StreamKind.video, [5]⟩, ⟨some 1, StreamKind.video, [6]⟩]⟩
      ⟨some 24, none, none, none, none, some 5⟩ [] 1000000 24
      ⟨[⟨5, 0, [], "a"⟩], 1, 24⟩ rfl rfl (by decide) (by decide)

/-! ## Claim C4 -/

/-- Claim C4, counterexample: the claim says the first non-null candidate
wins. With a declared frame rate of 0 and a base rate of 24, the first
non-null candidate is the declared rate, so the claim predicts
`round2 0 = 0`; the code's `or` chains treat the zero Fraction as falsy and
fall through to the base rate, returning 24. -/
theorem c4_counterexample :
    resolve_fps ⟨some 0, none, none, none, some 24, none⟩ = Except.ok 24 ∧
    resolve_fps ⟨some 0, none, none, none, some 24, none⟩ ≠ Except.ok (round2 0) := by
  refine ⟨by decide, by decide⟩

/-- Claim C4 (amended): rate resolution tries the candidates in the order
declared frame rate, codec rate field, average rate, guessed rate, base
rate, and the first candidate that is present AND nonzero (Python
truthiness, which the counterexample forces in place of mere non-nullity)
wins; ratio candidates are used at their exact rational value (true
division of numerator by denominator) and the final value is rounded to 2
decimal places. In particular, given only a nonzero base rate the result is
the base rate rounded to 2 decimals, and given a nonzero average rate it
beats the base rate. -/
theorem c4_first_truthy (v : VideoStream) (q : ℚ)
    (h : first_truthy [v.framerate, v.rate, v.average_rate, v.guessed_rate, v.base_rate] =
      some q) :
    resolve_fps v = Except.ok (round2 q) := by
  by_cases t1 : truthy v.framerate <;>
  by_cases t2 : truthy v.rate <;>
  by_cases t3 : truthy v.average_rate <;>
  by_cases t4 : truthy v.guessed_rate <;>
  by_cases t5 : truthy v.base_rate <;>
  simp_all [first_truthy, resolve_fps, pyOr]

/-- Claim C4, witness: with only an average rate (30) and a base rate (24),
the first truthy candidate is the average rate, and resolution returns it
rounded. -/
theorem c4_witness :
    resolve_fps ⟨none, none, some 30, none, some 24, none⟩ = Except.ok (round2 30) :=
  c4_first_truthy ⟨none, none, some 30, none, some 24, none⟩ 30 (by decide)

/-! ## Claim C5 -/

/-- Claim C5, counterexample: the claim says the resolved rate is never zero
or negative. With every field absent except a base rate equal to the zero
Fraction, the `fps is None and rate is None` guard does not fire (`rate` is
the zero Fraction, not None), and resolution returns 0. -/
theorem c5_counterexample :
    resolve_fps ⟨none, none, none, none, some 0, none⟩ = Except.ok 0 ∧
    ¬(0 < (0 : ℚ)) := by
  refine ⟨by decide, by decide⟩

/-- Claim C5 (amended): if every present rate candidate is nonnegative the
resolved rate is nonnegative, and if every present candidate is at least 1
(any realistic frame rate) the resolved rate is strictly positive — but a
zero-valued candidate can make the result 0, as the counterexample forces;
and when no candidate exists at any fallback step (all five fields absent)
resolution fails explicitly with the RuntimeError of line 84 (the spec's
RateResolutionError), during setup, before any frame is produced. -/
theorem c5_rate_invariant (v : VideoStream) :
    ((∀ q, candidate_of v q → 0 ≤ q) →
      ∀ q, resolve_fps v = Except.ok q → 0 ≤ q) ∧
    ((∀ q, candidate_of v q → 1 ≤ q) →
      ∀ q, resolve_fps v = Except.ok q → 0 < q) ∧
    (v.framerate = none → v.rate = none → v.average_rate = none →
      v.guessed_rate = none → v.base_rate = none →
      resolve_fps v = Except.error SetupError.rateResolution ∧
      ∀ (u : Bool) (L : ℤ) (c : Container) (vs : List VideoStream),
        c.video = v :: vs →
        load_video_node u L c = Except.error SetupError.rateResolution) := by
  refine ⟨?_, ?_, ?_⟩
  · intro hc q hok
    obtain ⟨x, hx, hq⟩ := resolve_fps_ok_winner v q hok
    rw [hq]
    exact round2_nonneg x (hc x hx)
  · intro hc q hok
    obtain ⟨x, hx, hq⟩ := resolve_fps_ok_winner v q hok
    rw [hq]
    exact round2_pos x (hc x hx)
  · intro e1 e2 e3 e4 e5
    have hres : resolve_fps v = Except.error SetupError.rateResolution := by
      simp [resolve_fps, pyOr, truthy, e1, e2, e3, e4, e5]
    refine ⟨hres, ?_⟩
    intro u L c vs hv
    simp only [load_video_node, hv, hres]

/-- Claim C5, witness: with a declared frame rate of 24 the resolved rate is
positive, and with no candidate at all the whole setup fails with the
rate-resolution error. -/
theorem c5_witness :
    (0 : ℚ) < 24 ∧
    load_video_node false 0 ⟨[⟨none, none, none, none, none, none⟩], [], none, []⟩ =
      Except.error SetupError.rateResolution := by
  constructor
  · exact (c5_rate_invariant ⟨some 24, none, none, none, none, none⟩).2.1
      (fun q hq => by
        rcases hq with h | h | h | h | h
        · rw [← Option.some.inj h]; decide
        · exact Option.noConfusion h
        · exact Option.noConfusion h
        · exact Option.noConfusion h
        · exact Option.noConfusion h)
      24 (by decide)
  · exact ((c5_rate_invariant ⟨none, none, none, none, none, none⟩).2.2
      rfl rfl rfl rfl rfl).2 false 0
      ⟨[⟨none, none, none, none, none, none⟩], [], none, []⟩ [] rfl

/-! ## Claim C6 -/

/-- Claim C6 (confirmed): on a successful unlimited setup, the advertised
total frame count equals the stream's reported encoded-frame count whenever
that count is present and non-zero, and otherwise equals
`floor(duration_us / 1000000 * fps)`, the container duration being the
microsecond-resolution field divided by 1,000,000 (for nonnegative duration
and rate, where Python's `int` truncation coincides with floor). -/
theorem c6_frame_count (L : ℤ) (c : Container) (v : VideoStream)
    (vs : List VideoStream) (dus : ℤ) (fps : ℚ) (r : LoadResult)
    (hv : c.video = v :: vs) (hd : c.duration = some dus)
    (hres : resolve_fps v = Except.ok fps)
    (hdn : 0 ≤ dus) (hfn : 0 ≤ fps)
    (hok : load_video_node false L c = Except.ok r) :
    (∀ n, v.encoded_frame_count = some n → n ≠ 0 → r.expected_length = n) ∧
    ((v.encoded_frame_count = none ∨ v.encoded_frame_count = some 0) →
      r.expected_length = ⌊(dus : ℚ) / 1000000 * fps⌋) := by
  have h := load_expected_length false L c v vs dus fps r hv hd hres hok
  simp only [Bool.false_eq_true, if_false] at h
  constructor
  · intro n hn hn0
    rw [h, hn]
    simp [estimate_frame_count, hn0]
  · intro henc
    rw [h]
    exact estimate_frame_count_floor v.encoded_frame_count dus fps hdn hfn henc

/-- Claim C6, witness: duration 10.0 s (10,000,000 us), resolved rate 24.0,
no usable encoded-frame-count metadata: the advertised frame count is 240. -/
theorem c6_witness :
    load_video_node false 0
        ⟨[⟨some 24, none, none, none, none, none⟩], [⟨"aac"⟩], some 10000000, []⟩ =
      Except.ok ⟨[], 240, 24⟩ ∧
    (⟨[], 240, 24⟩ : LoadResult).expected_length = ⌊(10000000 : ℚ) / 1000000 * 24⌋ := by
  constructor
  · decide
  · exact (c6_frame_count 0
      ⟨[⟨some 24, none, none, none, none, none⟩], [⟨"aac"⟩], some 10000000, []⟩
      ⟨some 24, none, none, none, none, none⟩ [] 10000000 24 ⟨[], 240, 24⟩
      rfl rfl (by decide) (by decide) (by decide) (by decide)).2 (Or.inl rfl)

/-! ## Claim C7 -/

/-- Claim C7 (confirmed): a run with `use_limit = true` is an initial segment of the
unlimited run over the same packet sequence, so audio is accumulated and
attached under a limit exactly as in an unlimited run: every record emitted
by both runs (in particular its attached audio list) is identical. The
docstring's statement that audio is not copied under a limit does not hold;
the literal accumulate-and-attach behaviour is preserved. -/
theorem c7_limit_refinement (L : ℤ) (codec : String) (ps : List Packet) :
    (∃ t, run false L codec ps = run true L codec ps ++ t) ∧
    ∀ k, k < (run true L codec ps).length →
      (run true L codec ps).getD k ⟨0, 0, [], ""⟩ =
        (run false L codec ps).getD k ⟨0, 0, [], ""⟩ := by
  obtain ⟨t, ht⟩ := demux_loop_limit_extends L codec ps 0 []
  refine ⟨⟨t, ht⟩, ?_⟩
  intro k hk
  have hh : run false L codec ps = run true L codec ps ++ t := ht
  rw [hh]
  exact (List.getD_append _ _ _ _ hk).symm

/-- Claim C7, witness: with limit 1 over a container holding video, audio,
video packets, the limited run's only record coincides with the unlimited
run's record 0 (audio attached identically). -/
theorem c7_witness :
    (run true 1 "a" [⟨some 0, StreamKind.video, [5]⟩, ⟨some 1, StreamKind.audio, [9]⟩,
        ⟨some 2, StreamKind.video, [6]⟩]).getD 0 ⟨0, 0, [], ""⟩ =
      (run false 1 "a" [⟨some 0, StreamKind.video, [5]⟩, ⟨some 1, StreamKind.audio, [9]⟩,
        ⟨some 2, StreamKind.video, [6]⟩]).getD 0 ⟨0, 0, [], ""⟩ :=
  (c7_limit_refinement 1 "a" [⟨some 0, StreamKind.video, [5]⟩, ⟨some 1, StreamKind.audio, [9]⟩,
    ⟨some 2, StreamKind.video, [6]⟩]).2 0 (by decide)

/-! ## Claim C8 -/

/-- Claim C8 (confirmed): in every run (the model's packets always decode
successfully), the sequence of indices attached to the yielded records is
exactly 0, 1, 2, ... in emission order, with no gaps and no repeats: the
index starts at 0 and is incremented by exactly 1 at each yield and nowhere
else. -/
theorem c8_index_sequence (u : Bool) (L : ℤ) (codec : String) (ps : List Packet) :
    (run u L codec ps).map FrameRecord.index = List.range ((run u L codec ps).length) := by
  rw [List.range_eq_range']
  exact demux_loop_map_index u L codec ps 0 []

/-! ## Claim C9 -/

/-- Claim C9 (confirmed): a packet whose decode timestamp is absent is
discarded: processing it leaves the whole iterator state — the yielded
records, the frame index counter and the audio accumulator — exactly as if
the packet were not there, and yields no element. -/
theorem c9_skip_no_dts (u : Bool) (L : ℤ) (codec : String) (p : Packet)
    (ps : List Packet) (i : ℕ) (a : List ℕ) (h : p.dts = none) :
    demux_loop u L codec (p :: ps) i a = demux_loop u L codec ps i a := by
  obtain ⟨dts, k, fs⟩ := p
  simp only at h
  subst h
  simp [demux_loop]

/-- Claim C9, witness: a timestamp-less audio packet in front of an empty
packet list changes nothing. -/
theorem c9_witness :
    demux_loop false 0 "a" [⟨none, StreamKind.audio, [1]⟩] 0 [] =
      demux_loop false 0 "a" [] 0 [] :=
  c9_skip_no_dts false 0 "a" ⟨none, StreamKind.audio, [1]⟩ [] 0 [] rfl

/-! ## Claim C10 -/

/-- Claim C10 (confirmed): a container with a video stream but no audio
stream makes `load_video_node` fail during setup — indexing the empty audio
stream list at line 97 — before any element of the sequence is produced
(the result is an error, carrying no iterator): the code unconditionally
requires at least one audio stream. -/
theorem c10_requires_audio (u : Bool) (L : ℤ) (c : Container) (v : VideoStream)
    (vs : List VideoStream) (dus : ℤ) (fps : ℚ)
    (hv : c.video = v :: vs) (ha : c.audio = [])
    (hd : c.duration = some dus) (hres : resolve_fps v = Except.ok fps) :
    load_video_node u L c = Except.error SetupError.noAudioStream := by
  simp only [load_video_node, hv, hres, hd, ha]

/-- Claim C10, witness: a concrete video-only container fails with the
audio IndexError. -/
theorem c10_witness :
    load_video_node false 0
        ⟨[⟨some 24, none, none, none, none, none⟩], [], some 10000000, []⟩ =
      Except.error SetupError.noAudioStream :=
  c10_requires_audio false 0
    ⟨[⟨some 24, none, none, none, none, none⟩], [], some 10000000, []⟩
    ⟨some 24, none, none, none, none, none⟩ [] 10000000 24 rfl rfl rfl (by decide)

end LoadVideo
